import Mathlib

/-!
Shallow embedding of the cross-index reference resolution engine
(`enterprise/cmd/frontend/internal/codeintel/resolvers/query_references.go`).

Go machine integers are modelled as `Int` (none of the embedded arithmetic
can overflow in ways the claims depend on).  Fallible Go functions returning
`(T, error)` are modelled as `Except RefErr T`.  Collaborators that live
outside this file's source (the dbstore, the lsifstore, the bloom-filter
decoder, the commit checker, the position adjuster) are parameters of the
embedded functions, bundled in a `Resolver` structure mirroring the
`queryResolver` receiver.
-/

/-- `lsifstore.Position`: zero-based line/character pair. -/
structure Position where
  line : Int
  character : Int
deriving DecidableEq, Repr

/-- `lsifstore.Range`: start and end positions.  `end` is a Lean keyword,
so the field is named `stop`. -/
structure Range where
  start : Position
  stop : Position
deriving DecidableEq, Repr

/-- `lsifstore.Location`: a location inside one upload's bundle. -/
structure Location where
  DumpID : Int
  Path : String
  Range : Range
deriving DecidableEq, Repr

/-- `dbstore.Dump` (external collaborator record): only the `ID` field is
read by the code embedded here. -/
structure Dump where
  ID : Int
deriving DecidableEq, Repr

/-- `precise.QualifiedMonikerData`, restricted to the fields this code
reads (the spec's Moniker is `{scheme, identifier, kind}`; only
`Identifier` is consulted by `testFilter`). -/
structure QualifiedMonikerData where
  Kind : String
  Scheme : String
  Identifier : String
deriving DecidableEq, Repr

/-- `adjustedUpload`: an upload visible at the requested position together
with its path/position adjusted into the upload's own commit. -/
structure adjustedUpload where
  Upload : Dump
  AdjustedPath : String
  AdjustedPosition : Position
  AdjustedPathInBundle : String
deriving DecidableEq, Repr

/-- `cursorAdjustedUpload`: the cursor-serialisable form of `adjustedUpload`
(the upload record replaced by its ID). -/
structure cursorAdjustedUpload where
  DumpID : Int
  AdjustedPath : String
  AdjustedPosition : Position
  AdjustedPathInBundle : String
deriving DecidableEq, Repr

/-- `resolvers.AdjustedLocation`: a location translated back to the
caller's commit (produced by the `adjustLocations` collaborator). -/
structure AdjustedLocation where
  Dump : Dump
  Path : String
  AdjustedCommit : String
  AdjustedRange : Range
deriving DecidableEq, Repr

/-- Error values of the embedding.  `wrap` is `errors.Wrap(err, op)`,
`multi` is `multierror.Append`, `store` an opaque collaborator failure,
`concurrentModification` is `ErrConcurrentModification`, `malformedCursor`
the cursor-decoding failure, and `fuelExhausted` the artificial exhaustion
of the fuel bounding the source's unbounded `for` loops. -/
inductive RefErr where
  | concurrentModification
  | malformedCursor
  | store (msg : String)
  | wrap (op : String) (e : RefErr)
  | multi (e1 e2 : RefErr)
  | fuelExhausted
deriving DecidableEq, Repr

/-- `referencesCursor`: the pagination cursor.  Go nil-vs-non-nil slices
that the code distinguishes (`AdjustedUploads`, `OrderedMonikers`,
`DefinitionUploadIDs`) are `Option (List _)`; `BatchIDs` is only ever
length-tested, so a plain list. -/
structure referencesCursor where
  Phase : String
  AdjustedUploads : Option (List cursorAdjustedUpload)
  OrderedMonikers : Option (List QualifiedMonikerData)
  DefinitionUploadIDs : Option (List Int)
  LocalBatchOffset : Int
  LocalOffset : Int
  RemoteBatchOffset : Int
  RemoteOffset : Int
  BatchIDs : List Int
deriving DecidableEq, Repr

/-- `dbstore.PackageReference` as consumed here: a candidate index ID and
its encoded bloom filter (bytes modelled as `List Nat`). -/
structure PackageReference where
  DumpID : Int
  Filter : List Nat
deriving DecidableEq, Repr

/-- The collaborators reached through the `queryResolver` receiver.  Each
field models one external call made by query_references.go; the store
scanner returned by `ReferenceIDsAndFilters` is a list of `Next` outcomes
(`Close` is modelled as error-free: no claim depends on close failures). -/
structure Resolver where
  uploadCache : List (Int × Dump)
  adjustUploads : Int → Int → Except RefErr (List adjustedUpload)
  orderedMonikersOf : List adjustedUpload → Except RefErr (List QualifiedMonikerData)
  definitionUploads : List QualifiedMonikerData → Except RefErr (List Dump)
  lsifReferences : Int → String → Int → Int → Int → Int → Except RefErr (List Location × Int)
  lsifImplementations : Int → String → Int → Int → Int → Int → Except RefErr (List Location × Int)
  referenceIDsAndFilters : Int → Int → Except RefErr (List (Except RefErr PackageReference) × Int)
  bloomDecode : List Nat → Except RefErr (String → Bool)
  getDumpsByIDs : List Int → Except RefErr (List Dump)
  filterUploadsWithCommits : List Dump → Except RefErr (List Dump)
  monikerLocations : List Dump → List QualifiedMonikerData → String → Int → Int → Except RefErr (List Location × Int)
  adjustLocations : List Location → Except RefErr (List AdjustedLocation)

/-- Go map lookup on the request-scoped upload cache (`r.uploadCache[id]`). -/
def cacheLookup (cache : List (Int × Dump)) (id : Int) : Option Dump :=
  (cache.find? (fun p => p.1 == id)).map (·.2)

/-- Go map insert on the upload cache (`r.uploadCache[u.ID] = u`). -/
def cacheInsert (cache : List (Int × Dump)) (id : Int) (d : Dump) : List (Int × Dump) :=
  (id, d) :: cache.filter (fun p => p.1 != id)

/-- `testFilter` (query_references.go:446-459): decode the bloom filter and
test every ordered moniker's identifier, true at the first positive. -/
def testFilter (bloomDecode : List Nat → Except RefErr (String → Bool))
    (filter : List Nat) (orderedMonikers : List QualifiedMonikerData) :
    Except RefErr Bool :=
  match bloomDecode filter with
  | .error e => .error (.wrap "bloomfilter.Decode" e)
  | .ok includesIdentifier =>
      .ok (orderedMonikers.any fun moniker => includesIdentifier moniker.Identifier)

/-- The ignore map built at query_references.go:393-396.  The Go loop is
`for id := range ignoreIDs` with no second loop variable, so `id` ranges
over the slice's indices 0..len-1 and the map holds those indices, not
the elements of `ignoreIDs`. -/
def ignoreIDsMap (ignoreIDs : List Int) : List Int :=
  (List.range ignoreIDs.length).map Int.ofNat

/-- The scan loop of `uploadIDsWithReferences` (query_references.go:398-433):
consume scanner records while the filtered set is below `limit`, counting
every record scanned; skip IDs already in the filtered set or in the
ignore map, otherwise keep the ID iff its bloom filter tests positive.
The Go `filtered` map is modelled as a duplicate-free list in insertion
order. -/
def referencesScanLoop (bloomDecode : List Nat → Except RefErr (String → Bool))
    (orderedMonikers : List QualifiedMonikerData) (ignoreMap : List Int) (limit : Int) :
    List (Except RefErr PackageReference) → List Int → Int →
    Except RefErr (List Int × Int)
  | records, filtered, recordsScanned =>
    if (filtered.length : Int) < limit then
      match records with
      | [] => .ok (filtered, recordsScanned)
      | .error e :: _ => .error (.wrap "dbstore.ReferenceIDsAndFilters.Next" e)
      | .ok packageReference :: rest =>
        let recordsScanned := recordsScanned + 1
        if packageReference.DumpID ∈ filtered then
          referencesScanLoop bloomDecode orderedMonikers ignoreMap limit rest filtered recordsScanned
        else if packageReference.DumpID ∈ ignoreMap then
          referencesScanLoop bloomDecode orderedMonikers ignoreMap limit rest filtered recordsScanned
        else
          match testFilter bloomDecode packageReference.Filter orderedMonikers with
          | .error e => .error e
          | .ok true =>
              referencesScanLoop bloomDecode orderedMonikers ignoreMap limit rest
                (filtered ++ [packageReference.DumpID]) recordsScanned
          | .ok false =>
              referencesScanLoop bloomDecode orderedMonikers ignoreMap limit rest filtered recordsScanned
    else
      .ok (filtered, recordsScanned)

/-- `uploadIDsWithReferences` (query_references.go:381-442): open the store
scanner, run the scan loop, and return the matched IDs sorted ascending
(`sort.Ints`, modelled by `insertionSort`; the Go map-then-sort produces
exactly the ascending enumeration of the key set) together with the
records-scanned count and the store's total count. -/
def uploadIDsWithReferences (r : Resolver) (orderedMonikers : List QualifiedMonikerData)
    (ignoreIDs : List Int) (limit offset : Int) :
    Except RefErr (List Int × Int × Int) :=
  match r.referenceIDsAndFilters limit offset with
  | .error e => .error (.wrap "dbstore.ReferenceIDsAndFilters" e)
  | .ok (scanner, totalCount) =>
    match referencesScanLoop r.bloomDecode orderedMonikers (ignoreIDsMap ignoreIDs) limit
        scanner [] 0 with
    | .error e => .error e
    | .ok (filtered, recordsScanned) =>
        .ok (filtered.insertionSort (· ≤ ·), recordsScanned, totalCount)

/-- A fixed moniker for concrete evaluations. -/
def moniker0 : QualifiedMonikerData :=
  { Kind := "import", Scheme := "gomod", Identifier := "sym0" }

/-- A concrete scanner: four records, DumpID 7 appearing twice. -/
def demoScanner : List (Except RefErr PackageReference) :=
  [.ok { DumpID := 7, Filter := [0] },
   .ok { DumpID := 5, Filter := [0] },
   .ok { DumpID := 7, Filter := [1] },
   .ok { DumpID := 2, Filter := [0] }]

/-- A concrete resolver: the store scan yields `demoScanner` with total 4,
every bloom filter decodes to an always-positive membership test, and the
remaining collaborators are benign. -/
def demoResolver : Resolver where
  uploadCache := []
  adjustUploads := fun _ _ => .ok []
  orderedMonikersOf := fun _ => .ok [moniker0]
  definitionUploads := fun _ => .ok []
  lsifReferences := fun _ _ _ _ _ _ => .ok ([], 0)
  lsifImplementations := fun _ _ _ _ _ _ => .ok ([], 0)
  referenceIDsAndFilters := fun _ _ => .ok (demoScanner, 4)
  bloomDecode := fun _ => .ok (fun _ => true)
  getDumpsByIDs := fun ids => .ok (ids.map Dump.mk)
  filterUploadsWithCommits := fun ds => .ok ds
  monikerLocations := fun _ _ _ _ _ => .ok ([], 0)
  adjustLocations := fun _ => .ok []

/-- The store function selected at query_references.go:242-245: the
references traversal unless `ty` is "implementations". -/
def localFn (r : Resolver) (ty : String) :
    Int → String → Int → Int → Int → Int → Except RefErr (List Location × Int) :=
  if ty == "implementations" then r.lsifImplementations else r.lsifReferences

/-- The loop of `pageLocalReferences` (query_references.go:236-268):
iterate over the fixed slice `adjustedUploads[cursor.LocalBatchOffset:]`
(the Go range expression is evaluated once at loop entry), accumulating
locations and advancing the cursor's `LocalOffset`, resetting it and
advancing `LocalBatchOffset` whenever the active upload's local result
set is exhausted. -/
def pageLocalReferencesLoop (r : Resolver) (ty : String) (limit : Int) :
    List adjustedUpload → referencesCursor → List Location →
    Except RefErr (List Location × referencesCursor)
  | [], cursor, allLocations => .ok (allLocations, cursor)
  | adjustedUpload :: rest, cursor, allLocations =>
    if (allLocations.length : Int) ≥ limit then
      .ok (allLocations, cursor)
    else
      match localFn r ty adjustedUpload.Upload.ID adjustedUpload.AdjustedPathInBundle
          adjustedUpload.AdjustedPosition.line adjustedUpload.AdjustedPosition.character
          (limit - allLocations.length) cursor.LocalOffset with
      | .error e => .error (.wrap "lsifstore.References" e)
      | .ok (locations, totalCount) =>
        let cursor1 := { cursor with LocalOffset := cursor.LocalOffset + locations.length }
        let cursor2 :=
          if cursor1.LocalOffset ≥ totalCount then
            { cursor1 with LocalOffset := 0, LocalBatchOffset := cursor1.LocalBatchOffset + 1 }
          else cursor1
        pageLocalReferencesLoop r ty limit rest cursor2 (allLocations ++ locations)

/-- `pageLocalReferences` (query_references.go:234-271): run the loop over
the uploads from `LocalBatchOffset` on, then report
`cursor.LocalBatchOffset < len(adjustedUploads)` as the has-more flag. -/
def pageLocalReferences (r : Resolver) (ty : String)
    (adjustedUploads : List adjustedUpload) (cursor : referencesCursor) (limit : Int) :
    Except RefErr (List Location × referencesCursor × Bool) :=
  match pageLocalReferencesLoop r ty limit
      (adjustedUploads.drop cursor.LocalBatchOffset.toNat) cursor [] with
  | .error e => .error e
  | .ok (allLocations, cursor) =>
      .ok (allLocations, cursor,
        decide (cursor.LocalBatchOffset < (adjustedUploads.length : Int)))

/-- The zero-valued cursor (a fresh request's state, `Phase = local`). -/
def zeroCursor : referencesCursor where
  Phase := "local"
  AdjustedUploads := none
  OrderedMonikers := none
  DefinitionUploadIDs := none
  LocalBatchOffset := 0
  LocalOffset := 0
  RemoteBatchOffset := 0
  RemoteOffset := 0
  BatchIDs := []

/-- A concrete visible upload used in witnesses. -/
def demoUpload : adjustedUpload where
  Upload := { ID := 1 }
  AdjustedPath := "a.go"
  AdjustedPosition := { line := 10, character := 4 }
  AdjustedPathInBundle := "a.go"

/-- C3: for every successful `pageLocalReferences` call, the returned
has-more flag is true iff the cursor's `LocalBatchOffset` after the call
is strictly below the number of adjusted uploads. -/
theorem pageLocalReferences_hasMore (r : Resolver) (ty : String)
    (adjustedUploads : List adjustedUpload) (cursor : referencesCursor) (limit : Int)
    (locs : List Location) (c' : referencesCursor) (hasMore : Bool)
    (h : pageLocalReferences r ty adjustedUploads cursor limit = .ok (locs, c', hasMore)) :
    hasMore = true ↔ c'.LocalBatchOffset < (adjustedUploads.length : Int) := by
  unfold pageLocalReferences at h
  split at h
  · simp at h
  · simp only [Except.ok.injEq, Prod.mk.injEq] at h
    obtain ⟨-, h2, h3⟩ := h
    subst h2 h3
    simp

/-- C3 witness: the theorem applied to a one-upload request whose local
results are exhausted in one call. -/
theorem pageLocalReferences_hasMore_witness :
    (false = true ↔
      ({ zeroCursor with LocalBatchOffset := 1 } : referencesCursor).LocalBatchOffset <
        (([demoUpload] : List adjustedUpload).length : Int)) :=
  pageLocalReferences_hasMore demoResolver "references" [demoUpload] zeroCursor 10
    [] { zeroCursor with LocalBatchOffset := 1 } false rfl

/-- `rangeContainsPosition` (query_references.go:355-373), translated
clause for clause. -/
def rangeContainsPosition (r : Range) (pos : Position) : Bool :=
  if pos.line < r.start.line then
    false
  else if pos.line > r.stop.line then
    false
  else if pos.line == r.start.line && pos.character < r.start.character then
    false
  else if pos.line == r.stop.line && pos.character > r.stop.character then
    false
  else
    true

/-- Lexicographic (line, character) order on positions. -/
def posLe (p q : Position) : Prop :=
  p.line < q.line ∨ (p.line = q.line ∧ p.character ≤ q.character)

instance (p q : Position) : Decidable (posLe p q) := by
  unfold posLe; infer_instance

/-- C1: the claim fails on the code.  The ignore map is built from the
slice indices (`for id := range ignoreIDs`), so with ignore set `[5]` the
map holds `{0}` and the scanned candidate with DumpID 5 — which is in the
given ignore set — still reaches the bloom test and is included in the
returned batch `[2, 5, 7]`. -/
theorem uploadIDsWithReferences_includes_ignored_id :
    uploadIDsWithReferences demoResolver [moniker0] [5] 10 0 =
      .ok ([2, 5, 7], 4, 4) ∧ (5 : Int) ∈ [(5 : Int)] := by
  constructor
  · rfl
  · decide

/-- Unfolding equation for `referencesScanLoop`. -/
theorem referencesScanLoop_eq (bloomDecode : List Nat → Except RefErr (String → Bool))
    (orderedMonikers : List QualifiedMonikerData) (ignoreMap : List Int) (limit : Int)
    (records : List (Except RefErr PackageReference)) (filtered : List Int) (n : Int) :
    referencesScanLoop bloomDecode orderedMonikers ignoreMap limit records filtered n =
      if (filtered.length : Int) < limit then
        match records with
        | [] => .ok (filtered, n)
        | .error e :: _ => .error (.wrap "dbstore.ReferenceIDsAndFilters.Next" e)
        | .ok packageReference :: rest =>
          if packageReference.DumpID ∈ filtered then
            referencesScanLoop bloomDecode orderedMonikers ignoreMap limit rest filtered (n + 1)
          else if packageReference.DumpID ∈ ignoreMap then
            referencesScanLoop bloomDecode orderedMonikers ignoreMap limit rest filtered (n + 1)
          else
            match testFilter bloomDecode packageReference.Filter orderedMonikers with
            | .error e => .error e
            | .ok true =>
                referencesScanLoop bloomDecode orderedMonikers ignoreMap limit rest
                  (filtered ++ [packageReference.DumpID]) (n + 1)
            | .ok false =>
                referencesScanLoop bloomDecode orderedMonikers ignoreMap limit rest filtered (n + 1)
      else
        .ok (filtered, n) := by
  rw [referencesScanLoop.eq_def]

/-- The scan loop preserves freedom from duplicates of the filtered set:
an ID is appended only after the membership test on `filtered` fails. -/
theorem referencesScanLoop_nodup (bloomDecode : List Nat → Except RefErr (String → Bool))
    (orderedMonikers : List QualifiedMonikerData) (ignoreMap : List Int) (limit : Int) :
    ∀ (records : List (Except RefErr PackageReference)) (filtered : List Int)
      (n : Int) (filtered' : List Int) (n' : Int),
      referencesScanLoop bloomDecode orderedMonikers ignoreMap limit records filtered n =
        .ok (filtered', n') →
      filtered.Nodup → filtered'.Nodup := by
  intro records
  induction records with
  | nil =>
    intro filtered n filtered' n' h hnd
    rw [referencesScanLoop_eq] at h
    split at h <;> simp_all
  | cons record rest ih =>
    intro filtered n filtered' n' h hnd
    rw [referencesScanLoop_eq] at h
    split at h
    · cases record with
      | error e => simp at h
      | ok packageReference =>
        simp only at h
        split at h
        · exact ih _ _ _ _ h hnd
        · split at h
          · exact ih _ _ _ _ h hnd
          · split at h
            · simp at h
            next hmem _ _ heq =>
              refine ih _ _ _ _ h ?_
              simp [List.nodup_append, hnd, hmem]
            next => exact ih _ _ _ _ h hnd
    · simp_all

/-- C10: every successful `uploadIDsWithReferences` call returns its
candidate batch sorted strictly ascending (hence duplicate-free): the
filtered set is duplicate-free and `sort.Ints` sorts it. -/
theorem uploadIDsWithReferences_sorted (r : Resolver)
    (orderedMonikers : List QualifiedMonikerData) (ignoreIDs : List Int)
    (limit offset : Int) (ids : List Int) (s t : Int)
    (h : uploadIDsWithReferences r orderedMonikers ignoreIDs limit offset = .ok (ids, s, t)) :
    List.Sorted (· < ·) ids := by
  unfold uploadIDsWithReferences at h
  split at h
  · simp at h
  next scanner totalCount heq =>
    split at h
    · simp at h
    next filtered recordsScanned hloop =>
      have hnd : filtered.Nodup :=
        referencesScanLoop_nodup _ _ _ _ _ _ _ _ _ hloop List.nodup_nil
      simp only [Except.ok.injEq, Prod.mk.injEq] at h
      obtain ⟨h1, h2, h3⟩ := h
      subst h1
      have hsorted : List.Sorted (· ≤ ·) (filtered.insertionSort (· ≤ ·)) :=
        List.sorted_insertionSort _ _
      have hnd' : (filtered.insertionSort (· ≤ ·)).Nodup :=
        (List.perm_insertionSort _ _).symm.nodup hnd
      exact hsorted.lt_of_le hnd'

/-- C10 witness: the sortedness theorem applied to the concrete resolver. -/
theorem uploadIDsWithReferences_sorted_witness :
    List.Sorted (· < ·) ([2, 5, 7] : List Int) :=
  uploadIDsWithReferences_sorted demoResolver [moniker0] [5] 10 0 [2, 5, 7] 4 4 rfl

/-- `isSourceLocation` (query_references.go:342-352): true when the
location's index and path match a visible adjusted upload and the
location's range encloses that upload's adjusted query position. -/
def isSourceLocation (adjustedUploads : List adjustedUpload) (location : Location) : Bool :=
  adjustedUploads.any fun u =>
    location.DumpID == u.Upload.ID && location.Path == u.AdjustedPath &&
      rangeContainsPosition location.Range u.AdjustedPosition

/-- `uploadsByIDs` (query_references.go:464-491): split `ids` into cached
and missing, fetch the missing records, drop those whose commits are
unknown to gitserver, and record the fetched records in the cache.  The
translation keeps the source's `return nil, nil` at line 483: a failure
of `filterUploadsWithCommits` is swallowed into an ok empty result.  The
updated cache is returned alongside (Go mutates `r.uploadCache`). -/
def uploadsByIDs (r : Resolver) (ids : List Int) :
    Except RefErr (List Dump × List (Int × Dump)) :=
  let missingIDs := ids.filter fun id => (cacheLookup r.uploadCache id).isNone
  let existingUploads := ids.filterMap fun id => cacheLookup r.uploadCache id
  match r.getDumpsByIDs missingIDs with
  | .error e => .error (.wrap "dbstore.GetDumpsByIDs" e)
  | .ok uploads =>
    match r.filterUploadsWithCommits uploads with
    | .error _ => .ok ([], r.uploadCache)
    | .ok newUploads =>
        let cache := newUploads.foldl (fun c u => cacheInsert c u.ID u) r.uploadCache
        .ok (existingUploads ++ newUploads, cache)

/-- A resolver whose commit-check collaborator always fails. -/
def failingCommitResolver : Resolver :=
  { demoResolver with
      filterUploadsWithCommits := fun _ => .error (.store "gitserver unavailable") }

/-- C2: the claim fails on the code.  `uploadsByIDs` checks the error of
`filterUploadsWithCommits` and then returns `nil, nil`
(query_references.go:483), so a failing commit-check collaborator yields
an ok empty upload list and no error instead of a propagated error. -/
theorem uploadsByIDs_swallows_commit_check_error :
    failingCommitResolver.filterUploadsWithCommits [{ ID := 1 }] =
        .error (.store "gitserver unavailable") ∧
      uploadsByIDs failingCommitResolver [1] = .ok ([], []) := by
  exact ⟨rfl, rfl⟩

/-- `maximumIndexesPerMonikerSearch` (query_references.go:275). -/
def maximumIndexesPerMonikerSearch : Int := 50

/-- One execution of the batch-acquisition loop body
(query_references.go:288-300): scan the next window of candidate
records, queue the matching IDs as `BatchIDs`, advance
`RemoteBatchOffset` by the records-scanned count, and set it to -1 when
it reaches the store's total. -/
def remoteBatchScanStep (r : Resolver) (orderedMonikers : List QualifiedMonikerData)
    (definitionUploadIDs : List Int) (cursor : referencesCursor) :
    Except RefErr referencesCursor :=
  match uploadIDsWithReferences r orderedMonikers definitionUploadIDs
      maximumIndexesPerMonikerSearch cursor.RemoteBatchOffset with
  | .error e => .error e
  | .ok (referenceUploadIDs, recordScanned, totalCount) =>
    let cursor1 := { cursor with
      BatchIDs := referenceUploadIDs
      RemoteBatchOffset := cursor.RemoteBatchOffset + recordScanned }
    .ok (if cursor1.RemoteBatchOffset ≥ totalCount then
          { cursor1 with RemoteBatchOffset := -1 }
        else cursor1)

/-- The batch-acquisition loop (query_references.go:282-301), bounded by
fuel (the source loop has no structural bound).  The boolean is false
exactly when the source takes the early `return nil, false, nil`. -/
def remoteBatchLoop (r : Resolver) (orderedMonikers : List QualifiedMonikerData)
    (definitionUploadIDs : List Int) :
    Nat → referencesCursor → Except RefErr (referencesCursor × Bool)
  | fuel, cursor =>
    if cursor.BatchIDs.length == 0 then
      if cursor.RemoteBatchOffset < 0 then
        .ok (cursor, false)
      else
        match fuel with
        | 0 => .error .fuelExhausted
        | fuel + 1 =>
          match remoteBatchScanStep r orderedMonikers definitionUploadIDs cursor with
          | .error e => .error e
          | .ok cursor1 => remoteBatchLoop r orderedMonikers definitionUploadIDs fuel cursor1
    else
      .ok (cursor, true)

/-- `pageRemoteReferences` (query_references.go:281-339): acquire a batch,
hydrate its upload records, run the moniker search, advance
`RemoteOffset` (clearing the batch when its total is consumed), filter
out source locations, and report has-more.  Returns the updated upload
cache alongside (Go mutates `r.uploadCache` through `uploadsByIDs`). -/
def pageRemoteReferences (r : Resolver) (fuel : Nat) (lsifDataTable : String)
    (adjustedUploads : List adjustedUpload) (orderedMonikers : List QualifiedMonikerData)
    (definitionUploadIDs : List Int) (cursor : referencesCursor) (limit : Int) :
    Except RefErr (List Location × referencesCursor × Bool × List (Int × Dump)) :=
  match remoteBatchLoop r orderedMonikers definitionUploadIDs fuel cursor with
  | .error e => .error e
  | .ok (cursor, false) => .ok ([], cursor, false, r.uploadCache)
  | .ok (cursor, true) =>
    match uploadsByIDs r cursor.BatchIDs with
    | .error e => .error e
    | .ok (monikerSearchUploads, cache) =>
      match r.monikerLocations monikerSearchUploads orderedMonikers lsifDataTable
          limit cursor.RemoteOffset with
      | .error e => .error e
      | .ok (locations, totalCount) =>
        let cursor1 := { cursor with RemoteOffset := cursor.RemoteOffset + locations.length }
        let cursor2 :=
          if cursor1.RemoteOffset ≥ totalCount then
            { cursor1 with RemoteOffset := 0, BatchIDs := [] }
          else cursor1
        let filtered := locations.filter fun location =>
          !(isSourceLocation adjustedUploads location)
        .ok (filtered, cursor2,
          decide (cursor2.BatchIDs.length > 0) || decide (cursor2.RemoteBatchOffset ≥ 0),
          cache)

/-- C4: no location returned by `pageRemoteReferences` is a source
location: the in-place post-filter (query_references.go:327-333) removes
every location that encloses the adjusted query position of a visible
adjusted upload with the same index ID and adjusted path. -/
theorem pageRemoteReferences_no_source_locations (r : Resolver) (fuel : Nat)
    (lsifDataTable : String) (adjustedUploads : List adjustedUpload)
    (orderedMonikers : List QualifiedMonikerData) (definitionUploadIDs : List Int)
    (cursor : referencesCursor) (limit : Int) (locs : List Location)
    (c' : referencesCursor) (hasMore : Bool) (cache : List (Int × Dump))
    (h : pageRemoteReferences r fuel lsifDataTable adjustedUploads orderedMonikers
        definitionUploadIDs cursor limit = .ok (locs, c', hasMore, cache)) :
    ∀ location ∈ locs, isSourceLocation adjustedUploads location = false := by
  unfold pageRemoteReferences at h
  split at h
  · simp at h
  · simp only [Except.ok.injEq, Prod.mk.injEq] at h
    obtain ⟨h1, -, -, -⟩ := h
    subst h1
    intro location hmem
    simp at hmem
  · split at h
    · simp at h
    · split at h
      · simp at h
      · simp only [Except.ok.injEq, Prod.mk.injEq] at h
        obtain ⟨h1, -, -, -⟩ := h
        subst h1
        intro location hmem
        simp only [List.mem_filter, Bool.not_eq_eq_eq_not, Bool.not_true] at hmem
        exact hmem.2

/-- A location matching the demo upload's index, path and query position. -/
def demoSourceLoc : Location where
  DumpID := 1
  Path := "a.go"
  Range := { start := { line := 10, character := 0 }, stop := { line := 10, character := 10 } }

/-- A location in a different index, untouched by the post-filter. -/
def demoRemoteLoc : Location where
  DumpID := 3
  Path := "b.go"
  Range := { start := { line := 1, character := 0 }, stop := { line := 1, character := 5 } }

/-- A resolver whose moniker search yields one source location and one
genuinely remote location. -/
def remoteDemoResolver : Resolver :=
  { demoResolver with
      monikerLocations := fun _ _ _ _ _ => .ok ([demoSourceLoc, demoRemoteLoc], 2) }

/-- C4 witness: the theorem applied to a concrete remote page in which the
source location is filtered out and the remote one survives. -/
theorem pageRemoteReferences_no_source_locations_witness :
    isSourceLocation [demoUpload] demoRemoteLoc = false :=
  pageRemoteReferences_no_source_locations remoteDemoResolver 1 "references" [demoUpload]
    [moniker0] [] { zeroCursor with Phase := "remote", BatchIDs := [3] } 10
    [demoRemoteLoc] { zeroCursor with Phase := "remote" } true
    [(3, { ID := 3 })] rfl demoRemoteLoc (by simp)

/-- The scan loop's records-scanned counter never decreases. -/
theorem referencesScanLoop_scanned_le (bloomDecode : List Nat → Except RefErr (String → Bool))
    (orderedMonikers : List QualifiedMonikerData) (ignoreMap : List Int) (limit : Int) :
    ∀ (records : List (Except RefErr PackageReference)) (filtered : List Int)
      (n : Int) (filtered' : List Int) (n' : Int),
      referencesScanLoop bloomDecode orderedMonikers ignoreMap limit records filtered n =
        .ok (filtered', n') →
      n ≤ n' := by
  intro records
  induction records with
  | nil =>
    intro filtered n filtered' n' h
    rw [referencesScanLoop_eq] at h
    split at h <;> simp_all
  | cons record rest ih =>
    intro filtered n filtered' n' h
    rw [referencesScanLoop_eq] at h
    split at h
    · cases record with
      | error e => simp at h
      | ok packageReference =>
        simp only at h
        split at h
        · exact le_trans (by omega) (ih _ _ _ _ h)
        · split at h
          · exact le_trans (by omega) (ih _ _ _ _ h)
          · split at h
            · simp at h
            next => exact le_trans (by omega) (ih _ _ _ _ h)
            next => exact le_trans (by omega) (ih _ _ _ _ h)
    · simp_all

/-- A successful `uploadIDsWithReferences` reports a non-negative
records-scanned count. -/
theorem uploadIDsWithReferences_scanned_nonneg (r : Resolver)
    (orderedMonikers : List QualifiedMonikerData) (ignoreIDs : List Int)
    (limit offset : Int) (ids : List Int) (s t : Int)
    (h : uploadIDsWithReferences r orderedMonikers ignoreIDs limit offset = .ok (ids, s, t)) :
    0 ≤ s := by
  unfold uploadIDsWithReferences at h
  split at h
  · simp at h
  · split at h
    · simp at h
    next filtered recordsScanned hloop =>
      have hge := referencesScanLoop_scanned_le _ _ _ _ _ _ _ _ _ hloop
      simp only [Except.ok.injEq, Prod.mk.injEq] at h
      omega

/-- Unfolding equation for `remoteBatchLoop`. -/
theorem remoteBatchLoop_eq (r : Resolver) (orderedMonikers : List QualifiedMonikerData)
    (definitionUploadIDs : List Int) (fuel : Nat) (cursor : referencesCursor) :
    remoteBatchLoop r orderedMonikers definitionUploadIDs fuel cursor =
      if cursor.BatchIDs.length == 0 then
        if cursor.RemoteBatchOffset < 0 then
          .ok (cursor, false)
        else
          match fuel with
          | 0 => .error .fuelExhausted
          | fuel + 1 =>
            match remoteBatchScanStep r orderedMonikers definitionUploadIDs cursor with
            | .error e => .error e
            | .ok cursor1 => remoteBatchLoop r orderedMonikers definitionUploadIDs fuel cursor1
      else
        .ok (cursor, true) := by
  rw [remoteBatchLoop.eq_def]

/-- C6: the remote batch accounting.  First conjunct: one batch-scan step
queues exactly the scanned batch's IDs, advances `RemoteBatchOffset` by
the records-scanned count, and sets the -1 sentinel exactly when the
cumulative scanned count reaches the store's total.  Second conjunct:
with a negative `RemoteBatchOffset` and no queued batch,
`pageRemoteReferences` returns no locations and a false has-more flag. -/
theorem remoteBatchOffset_accounting :
    (∀ (r : Resolver) (orderedMonikers : List QualifiedMonikerData)
        (definitionUploadIDs : List Int) (cursor : referencesCursor)
        (ids : List Int) (scanned total : Int) (c' : referencesCursor),
        uploadIDsWithReferences r orderedMonikers definitionUploadIDs
            maximumIndexesPerMonikerSearch cursor.RemoteBatchOffset =
          .ok (ids, scanned, total) →
        remoteBatchScanStep r orderedMonikers definitionUploadIDs cursor = .ok c' →
        c'.BatchIDs = ids ∧
          (cursor.RemoteBatchOffset + scanned < total →
            c'.RemoteBatchOffset = cursor.RemoteBatchOffset + scanned) ∧
          (cursor.RemoteBatchOffset + scanned ≥ total → c'.RemoteBatchOffset = -1) ∧
          (0 ≤ cursor.RemoteBatchOffset →
            (c'.RemoteBatchOffset = -1 ↔ cursor.RemoteBatchOffset + scanned ≥ total))) ∧
    (∀ (r : Resolver) (fuel : Nat) (lsifDataTable : String)
        (adjustedUploads : List adjustedUpload)
        (orderedMonikers : List QualifiedMonikerData) (definitionUploadIDs : List Int)
        (cursor : referencesCursor) (limit : Int),
        cursor.BatchIDs = [] → cursor.RemoteBatchOffset < 0 →
        pageRemoteReferences r fuel lsifDataTable adjustedUploads orderedMonikers
            definitionUploadIDs cursor limit =
          .ok ([], cursor, false, r.uploadCache)) := by
  constructor
  · intro r orderedMonikers definitionUploadIDs cursor ids scanned total c' h1 h2
    have hnonneg := uploadIDsWithReferences_scanned_nonneg _ _ _ _ _ _ _ _ h1
    unfold remoteBatchScanStep at h2
    rw [h1] at h2
    simp only [Except.ok.injEq] at h2
    subst h2
    split
    next hge =>
      have hge' : cursor.RemoteBatchOffset + scanned ≥ total := hge
      refine ⟨rfl, ?_, ?_, ?_⟩
      · intro hlt
        omega
      · intro _
        rfl
      · intro _
        exact iff_of_true rfl hge'
    next hlt =>
      have hlt' : ¬(cursor.RemoteBatchOffset + scanned ≥ total) := hlt
      refine ⟨rfl, ?_, ?_, ?_⟩
      · intro _
        rfl
      · intro hge
        omega
      · intro hoff
        refine iff_of_false ?_ hlt'
        show ¬(cursor.RemoteBatchOffset + scanned = -1)
        omega
  · intro r fuel lsifDataTable adjustedUploads orderedMonikers definitionUploadIDs cursor
      limit hbatch hoff
    have hloop : remoteBatchLoop r orderedMonikers definitionUploadIDs fuel cursor =
        .ok (cursor, false) := by
      rw [remoteBatchLoop_eq]
      simp [hbatch, hoff]
    unfold pageRemoteReferences
    rw [hloop]

/-- The exhausted cursor: no queued batch, -1 sentinel offset. -/
def exhaustedCursor : referencesCursor :=
  { zeroCursor with RemoteBatchOffset := -1 }

/-- C6 witness: the accounting theorem applied to the concrete resolver
(scan of 4 records reaching the total of 4 sets the sentinel) and to the
exhausted cursor (immediate empty page). -/
theorem remoteBatchOffset_accounting_witness :
    (({ zeroCursor with Phase := "remote", BatchIDs := [2, 5, 7], RemoteBatchOffset := -1 } :
          referencesCursor).BatchIDs = [2, 5, 7] ∧
        (({ zeroCursor with Phase := "remote" } : referencesCursor).RemoteBatchOffset + 4 < 4 →
          ({ zeroCursor with Phase := "remote", BatchIDs := [2, 5, 7], RemoteBatchOffset := -1 } :
            referencesCursor).RemoteBatchOffset =
            ({ zeroCursor with Phase := "remote" } : referencesCursor).RemoteBatchOffset + 4) ∧
        (({ zeroCursor with Phase := "remote" } : referencesCursor).RemoteBatchOffset + 4 ≥ 4 →
          ({ zeroCursor with Phase := "remote", BatchIDs := [2, 5, 7], RemoteBatchOffset := -1 } :
            referencesCursor).RemoteBatchOffset = -1) ∧
        (0 ≤ ({ zeroCursor with Phase := "remote" } : referencesCursor).RemoteBatchOffset →
          (({ zeroCursor with Phase := "remote", BatchIDs := [2, 5, 7], RemoteBatchOffset := -1 } :
              referencesCursor).RemoteBatchOffset = -1 ↔
            ({ zeroCursor with Phase := "remote" } : referencesCursor).RemoteBatchOffset + 4 ≥ 4))) ∧
      pageRemoteReferences demoResolver 0 "references" [] [moniker0] [] exhaustedCursor 10 =
        .ok ([], exhaustedCursor, false, demoResolver.uploadCache) :=
  ⟨remoteBatchOffset_accounting.1 demoResolver [moniker0] []
      { zeroCursor with Phase := "remote" } [2, 5, 7] 4 4
      { zeroCursor with Phase := "remote", BatchIDs := [2, 5, 7], RemoteBatchOffset := -1 }
      rfl rfl,
    remoteBatchOffset_accounting.2 demoResolver 0 "references" [] [moniker0] []
      exhaustedCursor 10 rfl (by decide)⟩

/-- The hydration loop of `adjustedUploadsFromCursor`
(query_references.go:155-168): rebuild each adjusted upload from its
cached form, failing with `ErrConcurrentModification` at the first
cached ID absent from the request-scoped upload cache. -/
def hydrateFromCursor (cache : List (Int × Dump)) :
    List cursorAdjustedUpload → Except RefErr (List adjustedUpload)
  | [] => .ok []
  | u :: rest =>
    match cacheLookup cache u.DumpID with
    | none => .error .concurrentModification
    | some upload =>
      match hydrateFromCursor cache rest with
      | .error e => .error e
      | .ok tail =>
          .ok ({ Upload := upload, AdjustedPath := u.AdjustedPath,
                 AdjustedPosition := u.AdjustedPosition,
                 AdjustedPathInBundle := u.AdjustedPathInBundle } :: tail)

/-- `adjustedUploadsFromCursor` (query_references.go:153-189): when the
cursor already carries a cached slice (Go `*cursorAdjustedUploads != nil`,
modelled as `some`), hydrate from it through the upload cache only;
otherwise compute fresh via the position adjuster and stash the result.
The (possibly updated) cursor slice is returned alongside. -/
def adjustedUploadsFromCursor (r : Resolver) (line character : Int)
    (cursorAdjustedUploads : Option (List cursorAdjustedUpload)) :
    Except RefErr (List adjustedUpload × Option (List cursorAdjustedUpload)) :=
  match cursorAdjustedUploads with
  | some cached =>
    match hydrateFromCursor r.uploadCache cached with
    | .error e => .error e
    | .ok adjustedUploads => .ok (adjustedUploads, some cached)
  | none =>
    match r.adjustUploads line character with
    | .error e => .error e
    | .ok adjustedUploads =>
        .ok (adjustedUploads, some (adjustedUploads.map fun u =>
          { DumpID := u.Upload.ID, AdjustedPath := u.AdjustedPath,
            AdjustedPosition := u.AdjustedPosition,
            AdjustedPathInBundle := u.AdjustedPathInBundle }))

/-- `definitionUploadIDsFromCursor` (query_references.go:198-228): reuse
the cursor-stashed IDs when present; otherwise fetch the definition
uploads, omit those already among the adjusted uploads (the Go
found-flag loop is the filter below), and stash the IDs. -/
def definitionUploadIDsFromCursor (r : Resolver) (adjustedUploads : List adjustedUpload)
    (orderedMonikers : List QualifiedMonikerData) (cursor : referencesCursor) :
    Except RefErr (List Int × referencesCursor) :=
  match cursor.DefinitionUploadIDs with
  | some ids => .ok (ids, cursor)
  | none =>
    match r.definitionUploads orderedMonikers with
    | .error e => .error e
    | .ok definitionUploads =>
        let definitionUploadIDs := (definitionUploads.filter fun d =>
          !(adjustedUploads.any fun a => d.ID == a.Upload.ID)).map (·.ID)
        .ok (definitionUploadIDs,
          { cursor with DefinitionUploadIDs := some definitionUploadIDs })

/-- The remote-phase loop of `References` (query_references.go:106-119),
bounded by fuel: request remote pages until the page is full, setting
`Phase = done` and stopping when a page reports no more results.  The
resolver is threaded because `uploadsByIDs` grows the upload cache. -/
def remotePhaseLoop (fuel0 : Nat) (lsifDataTable : String)
    (adjustedUploads : List adjustedUpload) (orderedMonikers : List QualifiedMonikerData)
    (definitionUploadIDs : List Int) (limit : Int) :
    Nat → Resolver → List Location → referencesCursor →
    Except RefErr (List Location × referencesCursor × Resolver)
  | fuel, r, locations, cursor =>
    if (locations.length : Int) < limit then
      match fuel with
      | 0 => .error .fuelExhausted
      | fuel + 1 =>
        match pageRemoteReferences r fuel0 lsifDataTable adjustedUploads orderedMonikers
            definitionUploadIDs cursor (limit - locations.length) with
        | .error e => .error e
        | .ok (remoteLocations, cursor1, hasMore, cache) =>
          let r1 := { r with uploadCache := cache }
          let locations1 := locations ++ remoteLocations
          if !hasMore then
            .ok (locations1, { cursor1 with Phase := "done" }, r1)
          else
            remotePhaseLoop fuel0 lsifDataTable adjustedUploads orderedMonikers
              definitionUploadIDs limit fuel r1 locations1 cursor1
    else
      .ok (locations, cursor, r)

/-- Phase 1 of `References` (query_references.go:89-101): while
`Phase = local`, collect a local page and transition to `remote` when it
reports no more results. -/
def localPhaseStep (r : Resolver) (adjustedUploads : List adjustedUpload)
    (cursor : referencesCursor) (limit : Int) :
    Except RefErr (List Location × referencesCursor) :=
  if cursor.Phase == "local" then
    match pageLocalReferences r "references" adjustedUploads cursor limit with
    | .error e => .error e
    | .ok (localLocations, c, hasMore) =>
        .ok (localLocations, if hasMore then c else { c with Phase := "remote" })
  else
    .ok ([], cursor)

/-- Phase 2 of `References` (query_references.go:103-119): while
`Phase = remote`, loop remote pages until the page is full, marking the
cursor `done` when a page reports no more results. -/
def remotePhaseStep (r : Resolver) (fuel : Nat) (adjustedUploads : List adjustedUpload)
    (orderedMonikers : List QualifiedMonikerData) (definitionUploadIDs : List Int)
    (locations : List Location) (cursor : referencesCursor) (limit : Int) :
    Except RefErr (List Location × referencesCursor × Resolver) :=
  if cursor.Phase == "remote" then
    remotePhaseLoop fuel "references" adjustedUploads orderedMonikers definitionUploadIDs
      limit fuel r locations cursor
  else
    .ok (locations, cursor, r)

/-- `References` after cursor decoding (query_references.go:54-131):
resolve adjusted uploads, monikers and definition-upload IDs (each
reusing cursor-cached data when present), run the local phase, then the
remote phase, then adjust the collected locations.  Returns the adjusted
locations and the final cursor (which query_references.go:133-136
encodes unless `Phase = done`). -/
def referencesWithCursor (r : Resolver) (fuel : Nat) (line character limit : Int)
    (cursor0 : referencesCursor) :
    Except RefErr (List AdjustedLocation × referencesCursor) :=
  match adjustedUploadsFromCursor r line character cursor0.AdjustedUploads with
  | .error e => .error e
  | .ok (adjustedUploads, cachedUploads) =>
  let cursor1 := { cursor0 with AdjustedUploads := cachedUploads }
  match (match cursor1.OrderedMonikers with
         | some existing => Except.ok existing
         | none => r.orderedMonikersOf adjustedUploads) with
  | .error e => .error e
  | .ok orderedMonikers =>
  let cursor2 := { cursor1 with OrderedMonikers := some orderedMonikers }
  match definitionUploadIDsFromCursor r adjustedUploads orderedMonikers cursor2 with
  | .error e => .error e
  | .ok (definitionUploadIDs, cursor3) =>
  match localPhaseStep r adjustedUploads cursor3 limit with
  | .error e => .error e
  | .ok (locations, cursor4) =>
  match remotePhaseStep r fuel adjustedUploads orderedMonikers definitionUploadIDs
      locations cursor4 limit with
  | .error e => .error e
  | .ok (locations5, cursor5, r5) =>
  match r5.adjustLocations locations5 with
  | .error e => .error e
  | .ok adjustedLocations => .ok (adjustedLocations, cursor5)

/-- Hydration fails with `ErrConcurrentModification` whenever some cached
entry's ID is absent from the upload cache. -/
theorem hydrateFromCursor_missing (cache : List (Int × Dump)) :
    ∀ (cached : List cursorAdjustedUpload),
      (∃ u ∈ cached, cacheLookup cache u.DumpID = none) →
      hydrateFromCursor cache cached = .error .concurrentModification := by
  intro cached
  induction cached with
  | nil => simp
  | cons u rest ih =>
    rintro ⟨v, hv, hnone⟩
    cases hlu : cacheLookup cache u.DumpID with
    | none => simp [hydrateFromCursor, hlu]
    | some d =>
      have hvrest : v ∈ rest := by
        rcases List.mem_cons.mp hv with h | h
        · subst h; rw [hlu] at hnone; cases hnone
        · exact h
      have hr := ih ⟨v, hvrest, hnone⟩
      simp [hydrateFromCursor, hlu, hr]

/-- Hydration succeeds when every cached entry's ID is in the cache. -/
theorem hydrateFromCursor_present (cache : List (Int × Dump)) :
    ∀ (cached : List cursorAdjustedUpload),
      (∀ u ∈ cached, (cacheLookup cache u.DumpID).isSome) →
      ∃ uploads, hydrateFromCursor cache cached = .ok uploads := by
  intro cached
  induction cached with
  | nil => exact fun _ => ⟨[], rfl⟩
  | cons u rest ih =>
    intro hall
    cases hlu : cacheLookup cache u.DumpID with
    | none =>
      have := hall u (List.mem_cons_self u rest)
      rw [hlu] at this
      simp at this
    | some d =>
      obtain ⟨tail, htail⟩ := ih fun v hv => hall v (List.mem_cons_of_mem u hv)
      refine ⟨{ Upload := d, AdjustedPath := u.AdjustedPath,
                AdjustedPosition := u.AdjustedPosition,
                AdjustedPathInBundle := u.AdjustedPathInBundle } :: tail, ?_⟩
      simp [hydrateFromCursor, hlu, htail]

/-- C5: resuming from a cursor carrying cached `AdjustedUploads`.  First
conjunct: if any cached index ID is not in the request-scoped upload
cache, the whole page fails with `ErrConcurrentModification` (and hence
carries no locations).  Second conjunct: the cached branch reads only the
upload cache — two resolvers agreeing on the cache (but with arbitrarily
different store collaborators) resolve identically.  Third conjunct: when
every cached ID resolves, the uploads are rebuilt successfully from the
cursor. -/
theorem adjustedUploadsFromCursor_spec :
    (∀ (r : Resolver) (fuel : Nat) (line character limit : Int)
        (cursor0 : referencesCursor) (cached : List cursorAdjustedUpload),
        cursor0.AdjustedUploads = some cached →
        (∃ u ∈ cached, cacheLookup r.uploadCache u.DumpID = none) →
        referencesWithCursor r fuel line character limit cursor0 =
          .error .concurrentModification) ∧
    (∀ (r r' : Resolver) (line character : Int) (cached : List cursorAdjustedUpload),
        r'.uploadCache = r.uploadCache →
        adjustedUploadsFromCursor r line character (some cached) =
          adjustedUploadsFromCursor r' line character (some cached)) ∧
    (∀ (r : Resolver) (line character : Int) (cached : List cursorAdjustedUpload),
        (∀ u ∈ cached, (cacheLookup r.uploadCache u.DumpID).isSome) →
        ∃ uploads, adjustedUploadsFromCursor r line character (some cached) =
          .ok (uploads, some cached)) := by
  refine ⟨?_, ?_, ?_⟩
  · intro r fuel line character limit cursor0 cached hc hmiss
    have h1 := hydrateFromCursor_missing r.uploadCache cached hmiss
    unfold referencesWithCursor adjustedUploadsFromCursor
    rw [hc]
    simp [h1]
  · intro r r' line character cached hcache
    unfold adjustedUploadsFromCursor
    rw [hcache]
  · intro r line character cached hall
    obtain ⟨uploads, hup⟩ := hydrateFromCursor_present r.uploadCache cached hall
    exact ⟨uploads, by unfold adjustedUploadsFromCursor; simp [hup]⟩

/-- A cached cursor entry whose ID 42 is in no upload cache used below. -/
def demoCursorUpload : cursorAdjustedUpload where
  DumpID := 42
  AdjustedPath := "a.go"
  AdjustedPosition := { line := 10, character := 4 }
  AdjustedPathInBundle := "a.go"

/-- C5 witness: resuming against the demo resolver (empty upload cache)
with a cached entry for index 42 fails the page with
`ErrConcurrentModification`. -/
theorem adjustedUploadsFromCursor_spec_witness :
    referencesWithCursor demoResolver 1 10 4 10
        { zeroCursor with AdjustedUploads := some [demoCursorUpload] } =
      .error .concurrentModification :=
  adjustedUploadsFromCursor_spec.1 demoResolver 1 10 4 10
    { zeroCursor with AdjustedUploads := some [demoCursorUpload] } [demoCursorUpload] rfl
    ⟨demoCursorUpload, by simp, rfl⟩

/-- The local loop never changes the cursor's phase. -/
theorem pageLocalReferencesLoop_phase (r : Resolver) (ty : String) (limit : Int) :
    ∀ (uploads : List adjustedUpload) (cursor : referencesCursor) (acc locs : List Location)
      (c' : referencesCursor),
      pageLocalReferencesLoop r ty limit uploads cursor acc = .ok (locs, c') →
      c'.Phase = cursor.Phase := by
  intro uploads
  induction uploads with
  | nil =>
    intro cursor acc locs c' h
    simp only [pageLocalReferencesLoop, Except.ok.injEq, Prod.mk.injEq] at h
    rw [← h.2]
  | cons u rest ih =>
    intro cursor acc locs c' h
    simp only [pageLocalReferencesLoop] at h
    split at h
    · simp only [Except.ok.injEq, Prod.mk.injEq] at h
      rw [← h.2]
    · split at h
      · simp at h
      · have hp := ih _ _ _ _ h
        rw [hp]
        split <;> rfl

/-- `pageLocalReferences` never changes the cursor's phase. -/
theorem pageLocalReferences_phase (r : Resolver) (ty : String)
    (adjustedUploads : List adjustedUpload) (cursor : referencesCursor) (limit : Int)
    (locs : List Location) (c' : referencesCursor) (hasMore : Bool)
    (h : pageLocalReferences r ty adjustedUploads cursor limit = .ok (locs, c', hasMore)) :
    c'.Phase = cursor.Phase := by
  unfold pageLocalReferences at h
  split at h
  · simp at h
  next allLocations cursorX heq =>
    simp only [Except.ok.injEq, Prod.mk.injEq] at h
    obtain ⟨-, h2, -⟩ := h
    subst h2
    exact pageLocalReferencesLoop_phase _ _ _ _ _ _ _ _ heq

/-- A batch-scan step never changes the cursor's phase. -/
theorem remoteBatchScanStep_phase (r : Resolver) (orderedMonikers : List QualifiedMonikerData)
    (definitionUploadIDs : List Int) (cursor c' : referencesCursor)
    (h : remoteBatchScanStep r orderedMonikers definitionUploadIDs cursor = .ok c') :
    c'.Phase = cursor.Phase := by
  unfold remoteBatchScanStep at h
  split at h
  · simp at h
  · simp only [Except.ok.injEq] at h
    subst h
    split <;> rfl

/-- The batch-acquisition loop never changes the cursor's phase. -/
theorem remoteBatchLoop_phase (r : Resolver) (orderedMonikers : List QualifiedMonikerData)
    (definitionUploadIDs : List Int) :
    ∀ (fuel : Nat) (cursor c' : referencesCursor) (b : Bool),
      remoteBatchLoop r orderedMonikers definitionUploadIDs fuel cursor = .ok (c', b) →
      c'.Phase = cursor.Phase := by
  intro fuel
  induction fuel with
  | zero =>
    intro cursor c' b h
    rw [remoteBatchLoop_eq] at h
    split at h
    · split at h
      · simp only [Except.ok.injEq, Prod.mk.injEq] at h
        rw [← h.1]
      · simp at h
    · simp only [Except.ok.injEq, Prod.mk.injEq] at h
      rw [← h.1]
  | succ fuel ih =>
    intro cursor c' b h
    rw [remoteBatchLoop_eq] at h
    split at h
    · split at h
      · simp only [Except.ok.injEq, Prod.mk.injEq] at h
        rw [← h.1]
      · simp only at h
        split at h
        · simp at h
        next cursor1 hstep =>
          have h1 := remoteBatchScanStep_phase _ _ _ _ _ hstep
          have h2 := ih _ _ _ h
          rw [h2, h1]
    · simp only [Except.ok.injEq, Prod.mk.injEq] at h
      rw [← h.1]

/-- `pageRemoteReferences` never changes the cursor's phase. -/
theorem pageRemoteReferences_phase (r : Resolver) (fuel : Nat) (lsifDataTable : String)
    (adjustedUploads : List adjustedUpload) (orderedMonikers : List QualifiedMonikerData)
    (definitionUploadIDs : List Int) (cursor : referencesCursor) (limit : Int)
    (locs : List Location) (c' : referencesCursor) (hasMore : Bool)
    (cache : List (Int × Dump))
    (h : pageRemoteReferences r fuel lsifDataTable adjustedUploads orderedMonikers
        definitionUploadIDs cursor limit = .ok (locs, c', hasMore, cache)) :
    c'.Phase = cursor.Phase := by
  unfold pageRemoteReferences at h
  split at h
  · simp at h
  next cursor0 hloop =>
    simp only [Except.ok.injEq, Prod.mk.injEq] at h
    obtain ⟨-, h2, -, -⟩ := h
    subst h2
    exact remoteBatchLoop_phase _ _ _ _ _ _ _ hloop
  next cursor0 hloop =>
    split at h
    · simp at h
    · split at h
      · simp at h
      · simp only [Except.ok.injEq, Prod.mk.injEq] at h
        obtain ⟨-, h2, -, -⟩ := h
        subst h2
        have hl := remoteBatchLoop_phase _ _ _ _ _ _ _ hloop
        rw [← hl]
        split <;> rfl

/-- `definitionUploadIDsFromCursor` never changes the cursor's phase. -/
theorem definitionUploadIDsFromCursor_phase (r : Resolver)
    (adjustedUploads : List adjustedUpload) (orderedMonikers : List QualifiedMonikerData)
    (cursor : referencesCursor) (ids : List Int) (c' : referencesCursor)
    (h : definitionUploadIDsFromCursor r adjustedUploads orderedMonikers cursor =
      .ok (ids, c')) :
    c'.Phase = cursor.Phase := by
  unfold definitionUploadIDsFromCursor at h
  split at h
  · simp only [Except.ok.injEq, Prod.mk.injEq] at h
    rw [← h.2]
  · split at h
    · simp at h
    · simp only [Except.ok.injEq, Prod.mk.injEq] at h
      rw [← h.2]

/-- Unfolding equation for `remotePhaseLoop`. -/
theorem remotePhaseLoop_eq (fuel0 : Nat) (lsifDataTable : String)
    (adjustedUploads : List adjustedUpload) (orderedMonikers : List QualifiedMonikerData)
    (definitionUploadIDs : List Int) (limit : Int) (fuel : Nat) (r : Resolver)
    (locations : List Location) (cursor : referencesCursor) :
    remotePhaseLoop fuel0 lsifDataTable adjustedUploads orderedMonikers definitionUploadIDs
        limit fuel r locations cursor =
      if (locations.length : Int) < limit then
        match fuel with
        | 0 => .error .fuelExhausted
        | fuel + 1 =>
          match pageRemoteReferences r fuel0 lsifDataTable adjustedUploads orderedMonikers
              definitionUploadIDs cursor (limit - locations.length) with
          | .error e => .error e
          | .ok (remoteLocations, cursor1, hasMore, cache) =>
            if !hasMore then
              .ok (locations ++ remoteLocations, { cursor1 with Phase := "done" },
                { r with uploadCache := cache })
            else
              remotePhaseLoop fuel0 lsifDataTable adjustedUploads orderedMonikers
                definitionUploadIDs limit fuel { r with uploadCache := cache }
                (locations ++ remoteLocations) cursor1
      else
        .ok (locations, cursor, r) := by
  rw [remotePhaseLoop.eq_def]

/-- Run characterisation of phase 1: when the cursor is in the local
phase, the result is exactly the local page call's output, with the
phase rewritten to "remote" exactly when that call reported no more
results; otherwise the step is the identity. -/
theorem localPhaseStep_run (r : Resolver) (adjustedUploads : List adjustedUpload)
    (cursor : referencesCursor) (limit : Int) (locs : List Location)
    (c' : referencesCursor)
    (h : localPhaseStep r adjustedUploads cursor limit = .ok (locs, c')) :
    (cursor.Phase = "local" ∧
      ∃ locsL cL hasMore,
        pageLocalReferences r "references" adjustedUploads cursor limit =
          .ok (locsL, cL, hasMore) ∧ locs = locsL ∧
        ((hasMore = true ∧ c' = cL) ∨
          (hasMore = false ∧ c' = { cL with Phase := "remote" }))) ∨
    (¬cursor.Phase = "local" ∧ locs = [] ∧ c' = cursor) := by
  unfold localPhaseStep at h
  split at h
  next hloc =>
    split at h
    · simp at h
    next localLocations c hasMore heq =>
      simp only [Except.ok.injEq, Prod.mk.injEq] at h
      obtain ⟨h1, h2⟩ := h
      left
      refine ⟨by simpa using hloc, localLocations, c, hasMore, heq, h1.symm, ?_⟩
      cases hasMore with
      | true => exact Or.inl ⟨rfl, h2.symm⟩
      | false => exact Or.inr ⟨rfl, h2.symm⟩
  next hloc =>
    simp only [Except.ok.injEq, Prod.mk.injEq] at h
    exact Or.inr ⟨by simpa using hloc, h.1.symm, h.2.symm⟩

/-- One executed, continuing iteration of the remote-phase loop of
`References` (query_references.go:107-118): the page was not yet full,
the remote page call at the current state succeeded reporting more
results, and the loop advanced to the grown location list, the updated
cursor and the updated upload cache. -/
inductive remoteLoopStep (fuel0 : Nat) (lsifDataTable : String)
    (adjustedUploads : List adjustedUpload) (orderedMonikers : List QualifiedMonikerData)
    (definitionUploadIDs : List Int) (limit : Int) :
    Resolver × List Location × referencesCursor →
    Resolver × List Location × referencesCursor → Prop
  | step (r : Resolver) (locations : List Location) (cursor : referencesCursor)
      (remoteLocations : List Location) (cursor1 : referencesCursor)
      (cache : List (Int × Dump)) :
      (locations.length : Int) < limit →
      pageRemoteReferences r fuel0 lsifDataTable adjustedUploads orderedMonikers
          definitionUploadIDs cursor (limit - locations.length) =
        .ok (remoteLocations, cursor1, true, cache) →
      remoteLoopStep fuel0 lsifDataTable adjustedUploads orderedMonikers definitionUploadIDs
        limit (r, locations, cursor)
        ({ r with uploadCache := cache }, locations ++ remoteLocations, cursor1)

/-- Run characterisation of the remote-phase loop: a successful run
reaches, by executed iterations from the given entry state, a state that
either exits with the page full and the cursor untouched, or whose
remote page call reported no more results and whose cursor (with the
phase rewritten to "done") is the returned cursor. -/
theorem remotePhaseLoop_run (fuel0 : Nat) (lsifDataTable : String)
    (adjustedUploads : List adjustedUpload) (orderedMonikers : List QualifiedMonikerData)
    (definitionUploadIDs : List Int) (limit : Int) :
    ∀ (fuel : Nat) (r : Resolver) (locations : List Location) (cursor : referencesCursor)
      (locs' : List Location) (c' : referencesCursor) (r' : Resolver),
      remotePhaseLoop fuel0 lsifDataTable adjustedUploads orderedMonikers definitionUploadIDs
          limit fuel r locations cursor = .ok (locs', c', r') →
      ∃ rX locsX cX,
        Relation.ReflTransGen
          (remoteLoopStep fuel0 lsifDataTable adjustedUploads orderedMonikers
            definitionUploadIDs limit) (r, locations, cursor) (rX, locsX, cX) ∧
        cX.Phase = cursor.Phase ∧
        ((c' = cX ∧ locs' = locsX ∧ r' = rX) ∨
          ((locsX.length : Int) < limit ∧
            ∃ rlX cX' cacheX,
              pageRemoteReferences rX fuel0 lsifDataTable adjustedUploads orderedMonikers
                  definitionUploadIDs cX (limit - locsX.length) =
                .ok (rlX, cX', false, cacheX) ∧
              locs' = locsX ++ rlX ∧ c' = { cX' with Phase := "done" } ∧
              r' = { rX with uploadCache := cacheX })) := by
  intro fuel
  induction fuel with
  | zero =>
    intro r locations cursor locs' c' r' h
    rw [remotePhaseLoop_eq] at h
    split at h
    · simp at h
    · simp only [Except.ok.injEq, Prod.mk.injEq] at h
      exact ⟨r, locations, cursor, Relation.ReflTransGen.refl, rfl,
        Or.inl ⟨h.2.1.symm, h.1.symm, h.2.2.symm⟩⟩
  | succ fuel ih =>
    intro r locations cursor locs' c' r' h
    rw [remotePhaseLoop_eq] at h
    split at h
    next hlt =>
      simp only at h
      split at h
      · simp at h
      next remoteLocations cursor1 hasMore cache heq =>
        cases hasMore with
        | false =>
          simp only [Bool.not_false, if_true, Except.ok.injEq, Prod.mk.injEq] at h
          exact ⟨r, locations, cursor, Relation.ReflTransGen.refl, rfl,
            Or.inr ⟨hlt, remoteLocations, cursor1, cache, heq,
              h.1.symm, h.2.1.symm, h.2.2.symm⟩⟩
        | true =>
          simp only [Bool.not_true, if_false] at h
          obtain ⟨rX, locsX, cX, hchain, hph, hbranch⟩ := ih _ _ _ _ _ _ h
          refine ⟨rX, locsX, cX, ?_, ?_, hbranch⟩
          · exact Relation.ReflTransGen.head
              (remoteLoopStep.step r locations cursor remoteLocations cursor1 cache hlt heq)
              hchain
          · rw [hph]
            exact pageRemoteReferences_phase _ _ _ _ _ _ _ _ _ _ _ _ heq
    · simp only [Except.ok.injEq, Prod.mk.injEq] at h
      exact ⟨r, locations, cursor, Relation.ReflTransGen.refl, rfl,
        Or.inl ⟨h.2.1.symm, h.1.symm, h.2.2.symm⟩⟩

/-- Index of a phase in the one-way order local → remote → done. -/
def phaseIdx : String → Nat
  | "local" => 0
  | "remote" => 1
  | _ => 2

/-- C7: the cursor's phase only advances along local → remote → done
within one request.  Given a successful run: the phase index never
decreases and the final phase is the initial one, "remote", or "done";
moreover the run decomposes into its actual intermediate states (each
pinned by its defining equation on the actual inputs), and on those
states the phase leaves "local" only when the run's own local page call
reported no more results, and is marked "done" only when a remote page
call actually reached by the run's remote loop reported no more
results. -/
theorem references_phase_one_way (r : Resolver) (fuel : Nat) (line character limit : Int)
    (cursor0 : referencesCursor) (locs : List AdjustedLocation) (c' : referencesCursor)
    (h : referencesWithCursor r fuel line character limit cursor0 = .ok (locs, c')) :
    phaseIdx cursor0.Phase ≤ phaseIdx c'.Phase ∧
    (c'.Phase = cursor0.Phase ∨ c'.Phase = "remote" ∨ c'.Phase = "done") ∧
    ∃ (adjUploads : List adjustedUpload) (cached : Option (List cursorAdjustedUpload))
      (orderedMonikers : List QualifiedMonikerData) (definitionUploadIDs : List Int)
      (cursor3 : referencesCursor) (locations : List Location) (cursor4 : referencesCursor)
      (locations5 : List Location) (r5 : Resolver),
      adjustedUploadsFromCursor r line character cursor0.AdjustedUploads =
        .ok (adjUploads, cached) ∧
      (cursor0.OrderedMonikers = some orderedMonikers ∨
        (cursor0.OrderedMonikers = none ∧
          r.orderedMonikersOf adjUploads = .ok orderedMonikers)) ∧
      definitionUploadIDsFromCursor r adjUploads orderedMonikers
          { cursor0 with AdjustedUploads := cached,
                         OrderedMonikers := some orderedMonikers } =
        .ok (definitionUploadIDs, cursor3) ∧
      localPhaseStep r adjUploads cursor3 limit = .ok (locations, cursor4) ∧
      remotePhaseStep r fuel adjUploads orderedMonikers definitionUploadIDs locations
          cursor4 limit = .ok (locations5, c', r5) ∧
      cursor3.Phase = cursor0.Phase ∧
      (cursor4.Phase ≠ cursor3.Phase →
        cursor3.Phase = "local" ∧ cursor4.Phase = "remote" ∧
        ∃ locsL cL,
          pageLocalReferences r "references" adjUploads cursor3 limit =
            .ok (locsL, cL, false) ∧
          cursor4 = { cL with Phase := "remote" }) ∧
      (c'.Phase ≠ cursor4.Phase →
        cursor4.Phase = "remote" ∧ c'.Phase = "done" ∧
        ∃ rX locsX cX rlX cX' cacheX,
          Relation.ReflTransGen
            (remoteLoopStep fuel "references" adjUploads orderedMonikers
              definitionUploadIDs limit) (r, locations, cursor4) (rX, locsX, cX) ∧
          pageRemoteReferences rX fuel "references" adjUploads orderedMonikers
              definitionUploadIDs cX (limit - locsX.length) =
            .ok (rlX, cX', false, cacheX) ∧
          c' = { cX' with Phase := "done" }) := by
  unfold referencesWithCursor at h
  split at h
  · simp at h
  next adjustedUploads cachedUploads hadj =>
    dsimp only at h
    split at h
    · simp at h
    next orderedMonikers hmon =>
      split at h
      · simp at h
      next definitionUploadIDs cursor3 hdef =>
        split at h
        · simp at h
        next locations cursor4 hlocal =>
          split at h
          · simp at h
          next locations5 cursor5 r5 hremote =>
            split at h
            · simp at h
            next adjustedLocations hadjloc =>
              simp only [Except.ok.injEq, Prod.mk.injEq] at h
              obtain ⟨-, h2⟩ := h
              subst h2
              have hc3 : cursor3.Phase = cursor0.Phase := by
                have hx := definitionUploadIDsFromCursor_phase _ _ _ _ _ _ hdef
                simpa using hx
              have hdef' : definitionUploadIDsFromCursor r adjustedUploads orderedMonikers
                  { cursor0 with AdjustedUploads := cachedUploads,
                                 OrderedMonikers := some orderedMonikers } =
                  .ok (definitionUploadIDs, cursor3) := hdef
              have hmon' : cursor0.OrderedMonikers = some orderedMonikers ∨
                  (cursor0.OrderedMonikers = none ∧
                    r.orderedMonikersOf adjustedUploads = .ok orderedMonikers) := by
                cases hms : cursor0.OrderedMonikers with
                | some existing =>
                  simp only [hms, Except.ok.injEq] at hmon
                  exact Or.inl (by rw [hmon])
                | none =>
                  simp only [hms] at hmon
                  exact Or.inr ⟨rfl, hmon⟩
              have hgate_local : cursor4.Phase ≠ cursor3.Phase →
                  cursor3.Phase = "local" ∧ cursor4.Phase = "remote" ∧
                  ∃ locsL cL,
                    pageLocalReferences r "references" adjustedUploads cursor3 limit =
                      .ok (locsL, cL, false) ∧
                    cursor4 = { cL with Phase := "remote" } := by
                intro hne
                rcases localPhaseStep_run _ _ _ _ _ _ hlocal with
                  ⟨hloc, locsL, cL, hasMore, hpl, hlocs, hcase⟩ | ⟨hnloc, hlocs, hceq⟩
                · rcases hcase with ⟨hm, hceq⟩ | ⟨hm, hceq⟩
                  · exfalso
                    apply hne
                    rw [hceq]
                    exact pageLocalReferences_phase _ _ _ _ _ _ _ _ hpl
                  · subst hm
                    exact ⟨hloc, by rw [hceq], locsL, cL, hpl, hceq⟩
                · exact absurd (by rw [hceq]) hne
              have hgate_remote : cursor5.Phase ≠ cursor4.Phase →
                  cursor4.Phase = "remote" ∧ cursor5.Phase = "done" ∧
                  ∃ rX locsX cX rlX cX' cacheX,
                    Relation.ReflTransGen
                      (remoteLoopStep fuel "references" adjustedUploads orderedMonikers
                        definitionUploadIDs limit) (r, locations, cursor4) (rX, locsX, cX) ∧
                    pageRemoteReferences rX fuel "references" adjustedUploads orderedMonikers
                        definitionUploadIDs cX (limit - locsX.length) =
                      .ok (rlX, cX', false, cacheX) ∧
                    cursor5 = { cX' with Phase := "done" } := by
                intro hne
                have hr := hremote
                unfold remotePhaseStep at hr
                split at hr
                next hrem =>
                  obtain ⟨rX, locsX, cX, hchain, hph, hbranch⟩ :=
                    remotePhaseLoop_run _ _ _ _ _ _ _ _ _ _ _ _ _ hr
                  rcases hbranch with ⟨hc, -, -⟩ | ⟨hlt, rlX, cX', cacheX, hpage, -, hc, -⟩
                  · exact absurd (by rw [hc, hph]) hne
                  · exact ⟨by simpa using hrem, by rw [hc], rX, locsX, cX, rlX, cX',
                      cacheX, hchain, hpage, hc⟩
                next hrem =>
                  simp only [Except.ok.injEq, Prod.mk.injEq] at hr
                  exact absurd (by rw [← hr.2.1]) hne
              have hAB : phaseIdx cursor0.Phase ≤ phaseIdx cursor5.Phase ∧
                  (cursor5.Phase = cursor0.Phase ∨ cursor5.Phase = "remote" ∨
                    cursor5.Phase = "done") := by
                by_cases h45 : cursor5.Phase = cursor4.Phase
                · by_cases h34 : cursor4.Phase = cursor3.Phase
                  · have heq0 : cursor5.Phase = cursor0.Phase := by rw [h45, h34, hc3]
                    exact ⟨by rw [heq0], Or.inl heq0⟩
                  · obtain ⟨hl3, hr4, -⟩ := hgate_local h34
                    have h0 : cursor0.Phase = "local" := by rw [← hc3, hl3]
                    have h5 : cursor5.Phase = "remote" := by rw [h45, hr4]
                    exact ⟨by rw [h0, h5]; decide, Or.inr (Or.inl h5)⟩
                · obtain ⟨hr4, hd5, -⟩ := hgate_remote h45
                  by_cases h34 : cursor4.Phase = cursor3.Phase
                  · have h0 : cursor0.Phase = "remote" := by rw [← hc3, ← h34, hr4]
                    exact ⟨by rw [h0, hd5]; decide, Or.inr (Or.inr hd5)⟩
                  · obtain ⟨hl3, -, -⟩ := hgate_local h34
                    have h0 : cursor0.Phase = "local" := by rw [← hc3, hl3]
                    exact ⟨by rw [h0, hd5]; decide, Or.inr (Or.inr hd5)⟩
              exact ⟨hAB.1, hAB.2, adjustedUploads, cachedUploads, orderedMonikers,
                definitionUploadIDs, cursor3, locations, cursor4, locations5, r5,
                hadj, hmon', hdef', hlocal, hremote, hc3, hgate_local, hgate_remote⟩

/-- The cursor at the end of the demo run: all three phases traversed. -/
def demoFinalCursor : referencesCursor where
  Phase := "done"
  AdjustedUploads := some []
  OrderedMonikers := some [moniker0]
  DefinitionUploadIDs := some []
  LocalBatchOffset := 0
  LocalOffset := 0
  RemoteBatchOffset := -1
  RemoteOffset := 0
  BatchIDs := []

/-- C7 witness: a fresh request against the demo resolver runs
local → remote → done in one call; the theorem instantiated there. -/
theorem references_phase_one_way_witness :
    phaseIdx zeroCursor.Phase ≤ phaseIdx demoFinalCursor.Phase ∧
    (demoFinalCursor.Phase = zeroCursor.Phase ∨ demoFinalCursor.Phase = "remote" ∨
      demoFinalCursor.Phase = "done") ∧
    ∃ (adjUploads : List adjustedUpload) (cached : Option (List cursorAdjustedUpload))
      (orderedMonikers : List QualifiedMonikerData) (definitionUploadIDs : List Int)
      (cursor3 : referencesCursor) (locations : List Location) (cursor4 : referencesCursor)
      (locations5 : List Location) (r5 : Resolver),
      adjustedUploadsFromCursor demoResolver 10 4 zeroCursor.AdjustedUploads =
        .ok (adjUploads, cached) ∧
      (zeroCursor.OrderedMonikers = some orderedMonikers ∨
        (zeroCursor.OrderedMonikers = none ∧
          demoResolver.orderedMonikersOf adjUploads = .ok orderedMonikers)) ∧
      definitionUploadIDsFromCursor demoResolver adjUploads orderedMonikers
          { zeroCursor with AdjustedUploads := cached,
                            OrderedMonikers := some orderedMonikers } =
        .ok (definitionUploadIDs, cursor3) ∧
      localPhaseStep demoResolver adjUploads cursor3 10 = .ok (locations, cursor4) ∧
      remotePhaseStep demoResolver 1 adjUploads orderedMonikers definitionUploadIDs
          locations cursor4 10 = .ok (locations5, demoFinalCursor, r5) ∧
      cursor3.Phase = zeroCursor.Phase ∧
      (cursor4.Phase ≠ cursor3.Phase →
        cursor3.Phase = "local" ∧ cursor4.Phase = "remote" ∧
        ∃ locsL cL,
          pageLocalReferences demoResolver "references" adjUploads cursor3 10 =
            .ok (locsL, cL, false) ∧
          cursor4 = { cL with Phase := "remote" }) ∧
      (demoFinalCursor.Phase ≠ cursor4.Phase →
        cursor4.Phase = "remote" ∧ demoFinalCursor.Phase = "done" ∧
        ∃ rX locsX cX rlX cX' cacheX,
          Relation.ReflTransGen
            (remoteLoopStep 1 "references" adjUploads orderedMonikers
              definitionUploadIDs 10) (demoResolver, locations, cursor4) (rX, locsX, cX) ∧
          pageRemoteReferences rX 1 "references" adjUploads orderedMonikers
              definitionUploadIDs cX (10 - locsX.length) =
            .ok (rlX, cX', false, cacheX) ∧
          demoFinalCursor = { cX' with Phase := "done" }) :=
  references_phase_one_way demoResolver 1 10 4 10 zeroCursor [] demoFinalCursor rfl

/-- Atoms of the modelled cursor token: the opaque token of the Cursor
Codec is modelled as a flat atom list. -/
inductive Atom where
  | int (i : Int)
  | str (s : String)
  | tagNone
  | tagSome
deriving DecidableEq, Repr

/-- Consume one integer atom. -/
def parseIntAtom : List Atom → Option (Int × List Atom)
  | .int i :: rest => some (i, rest)
  | _ => none

/-- Consume one string atom. -/
def parseStrAtom : List Atom → Option (String × List Atom)
  | .str s :: rest => some (s, rest)
  | _ => none

/-- Serialise one cached adjusted upload. -/
def encCursorAdjustedUpload (u : cursorAdjustedUpload) : List Atom :=
  [.int u.DumpID, .str u.AdjustedPath, .int u.AdjustedPosition.line,
   .int u.AdjustedPosition.character, .str u.AdjustedPathInBundle]

/-- Parse one cached adjusted upload. -/
def parseCursorAdjustedUpload (ts : List Atom) :
    Option (cursorAdjustedUpload × List Atom) :=
  match parseIntAtom ts with
  | none => none
  | some (dumpID, ts) =>
  match parseStrAtom ts with
  | none => none
  | some (path, ts) =>
  match parseIntAtom ts with
  | none => none
  | some (line, ts) =>
  match parseIntAtom ts with
  | none => none
  | some (character, ts) =>
  match parseStrAtom ts with
  | none => none
  | some (pathInBundle, ts) =>
      some ({ DumpID := dumpID, AdjustedPath := path,
              AdjustedPosition := { line := line, character := character },
              AdjustedPathInBundle := pathInBundle }, ts)

/-- Serialise one qualified moniker. -/
def encMoniker (m : QualifiedMonikerData) : List Atom :=
  [.str m.Kind, .str m.Scheme, .str m.Identifier]

/-- Parse one qualified moniker. -/
def parseMoniker (ts : List Atom) : Option (QualifiedMonikerData × List Atom) :=
  match parseStrAtom ts with
  | none => none
  | some (kind, ts) =>
  match parseStrAtom ts with
  | none => none
  | some (scheme, ts) =>
  match parseStrAtom ts with
  | none => none
  | some (identifier, ts) =>
      some ({ Kind := kind, Scheme := scheme, Identifier := identifier }, ts)

/-- Serialise one integer list item. -/
def encIntItem (i : Int) : List Atom := [.int i]

/-- Serialise a list as a length prefix followed by its items. -/
def encListOf {α : Type} (encItem : α → List Atom) (xs : List α) : List Atom :=
  .int (xs.length : Int) :: (xs.map encItem).flatten

/-- Parse exactly `n` items. -/
def parseCount {α : Type} (parseItem : List Atom → Option (α × List Atom)) :
    Nat → List Atom → Option (List α × List Atom)
  | 0, ts => some ([], ts)
  | n + 1, ts =>
    match parseItem ts with
    | none => none
    | some (x, ts) =>
      match parseCount parseItem n ts with
      | none => none
      | some (xs, ts) => some (x :: xs, ts)

/-- Parse a length-prefixed list. -/
def parseListOf {α : Type} (parseItem : List Atom → Option (α × List Atom))
    (ts : List Atom) : Option (List α × List Atom) :=
  match parseIntAtom ts with
  | none => none
  | some (n, ts) =>
    if n < 0 then none else parseCount parseItem n.toNat ts

/-- Serialise an optional list, keeping the nil-vs-empty distinction: an
absent list is one `tagNone` atom, a present (possibly empty) list is
`tagSome` followed by its length-prefixed items. -/
def encOptListOf {α : Type} (encItem : α → List Atom) : Option (List α) → List Atom
  | none => [.tagNone]
  | some xs => .tagSome :: encListOf encItem xs

/-- Parse an optional list. -/
def parseOptListOf {α : Type} (parseItem : List Atom → Option (α × List Atom)) :
    List Atom → Option (Option (List α) × List Atom)
  | .tagNone :: ts => some (none, ts)
  | .tagSome :: ts =>
    match parseListOf parseItem ts with
    | none => none
    | some (xs, ts) => some (some xs, ts)
  | _ => none

/-- Modelled from the spec: `encodeCursor` of the Cursor Codec (§4.1),
whose implementation is not among the provided sources.  Every cursor
field of §3 is serialised in order; the `AdjustedUploads`,
`OrderedMonikers` and `DefinitionUploadIDs` fields keep their
empty-vs-absent distinction through `encOptListOf`. -/
def encodeCursor (c : referencesCursor) : List Atom :=
  .str c.Phase ::
    (encOptListOf encCursorAdjustedUpload c.AdjustedUploads ++
     encOptListOf encMoniker c.OrderedMonikers ++
     encOptListOf encIntItem c.DefinitionUploadIDs ++
     [.int c.LocalBatchOffset, .int c.LocalOffset, .int c.RemoteBatchOffset,
      .int c.RemoteOffset] ++
     encListOf encIntItem c.BatchIDs)

/-- Parse a full cursor (the inverse reading of `encodeCursor`). -/
def parseCursor (ts : List Atom) : Option (referencesCursor × List Atom) :=
  match parseStrAtom ts with
  | none => none
  | some (phase, ts) =>
  match parseOptListOf parseCursorAdjustedUpload ts with
  | none => none
  | some (adjustedUploads, ts) =>
  match parseOptListOf parseMoniker ts with
  | none => none
  | some (orderedMonikers, ts) =>
  match parseOptListOf parseIntAtom ts with
  | none => none
  | some (definitionUploadIDs, ts) =>
  match parseIntAtom ts with
  | none => none
  | some (localBatchOffset, ts) =>
  match parseIntAtom ts with
  | none => none
  | some (localOffset, ts) =>
  match parseIntAtom ts with
  | none => none
  | some (remoteBatchOffset, ts) =>
  match parseIntAtom ts with
  | none => none
  | some (remoteOffset, ts) =>
  match parseListOf parseIntAtom ts with
  | none => none
  | some (batchIDs, ts) =>
      some ({ Phase := phase, AdjustedUploads := adjustedUploads,
              OrderedMonikers := orderedMonikers,
              DefinitionUploadIDs := definitionUploadIDs,
              LocalBatchOffset := localBatchOffset, LocalOffset := localOffset,
              RemoteBatchOffset := remoteBatchOffset, RemoteOffset := remoteOffset,
              BatchIDs := batchIDs }, ts)

/-- Modelled from the spec: `decodeCursor` of the Cursor Codec (§4.1),
whose implementation is not among the provided sources.  An empty token
decodes to the zero-valued cursor with `Phase = local`; an unparseable or
partially-consumed token fails with the malformed-cursor error. -/
def decodeCursor (token : List Atom) : Except RefErr referencesCursor :=
  if token.isEmpty then
    .ok zeroCursor
  else
    match parseCursor token with
    | some (c, []) => .ok c
    | _ => .error .malformedCursor

/-- One-item round trip for integer items. -/
theorem parseIntAtom_rt (i : Int) (rest : List Atom) :
    parseIntAtom (encIntItem i ++ rest) = some (i, rest) := rfl

/-- One-item round trip for cached adjusted uploads. -/
theorem parseCursorAdjustedUpload_rt (u : cursorAdjustedUpload) (rest : List Atom) :
    parseCursorAdjustedUpload (encCursorAdjustedUpload u ++ rest) = some (u, rest) := rfl

/-- One-item round trip for monikers. -/
theorem parseMoniker_rt (m : QualifiedMonikerData) (rest : List Atom) :
    parseMoniker (encMoniker m ++ rest) = some (m, rest) := rfl

/-- Counted-list round trip. -/
theorem parseCount_rt {α : Type} (parseItem : List Atom → Option (α × List Atom))
    (encItem : α → List Atom)
    (hitem : ∀ (a : α) (rest : List Atom), parseItem (encItem a ++ rest) = some (a, rest)) :
    ∀ (xs : List α) (rest : List Atom),
      parseCount parseItem xs.length ((xs.map encItem).flatten ++ rest) = some (xs, rest) := by
  intro xs
  induction xs with
  | nil => intro rest; simp [parseCount]
  | cons x xs ih =>
    intro rest
    simp only [List.map_cons, List.flatten_cons, List.length_cons, List.append_assoc]
    rw [parseCount, hitem x ((xs.map encItem).flatten ++ rest)]
    simp [ih]

/-- Length-prefixed list round trip. -/
theorem parseListOf_rt {α : Type} (parseItem : List Atom → Option (α × List Atom))
    (encItem : α → List Atom)
    (hitem : ∀ (a : α) (rest : List Atom), parseItem (encItem a ++ rest) = some (a, rest))
    (xs : List α) (rest : List Atom) :
    parseListOf parseItem (encListOf encItem xs ++ rest) = some (xs, rest) := by
  unfold parseListOf encListOf
  rw [List.cons_append]
  simp only [parseIntAtom]
  rw [if_neg (by omega)]
  simpa using parseCount_rt parseItem encItem hitem xs rest

/-- Optional-list round trip, preserving the nil-vs-empty distinction. -/
theorem parseOptListOf_rt {α : Type} (parseItem : List Atom → Option (α × List Atom))
    (encItem : α → List Atom)
    (hitem : ∀ (a : α) (rest : List Atom), parseItem (encItem a ++ rest) = some (a, rest))
    (o : Option (List α)) (rest : List Atom) :
    parseOptListOf parseItem (encOptListOf encItem o ++ rest) = some (o, rest) := by
  cases o with
  | none => rfl
  | some xs =>
    unfold encOptListOf
    rw [List.cons_append]
    simp only [parseOptListOf]
    rw [parseListOf_rt parseItem encItem hitem xs rest]

/-- Full-cursor round trip against an arbitrary tail. -/
theorem parseCursor_rt (c : referencesCursor) (rest : List Atom) :
    parseCursor (encodeCursor c ++ rest) = some (c, rest) := by
  unfold parseCursor encodeCursor
  simp only [List.cons_append, List.append_assoc, parseStrAtom,
    parseOptListOf_rt parseCursorAdjustedUpload encCursorAdjustedUpload
      parseCursorAdjustedUpload_rt,
    parseOptListOf_rt parseMoniker encMoniker parseMoniker_rt,
    parseOptListOf_rt parseIntAtom encIntItem parseIntAtom_rt,
    parseIntAtom, List.nil_append,
    parseListOf_rt parseIntAtom encIntItem parseIntAtom_rt]

/-- C9: decoding an encoded cursor yields the original cursor, every field
preserved, including the distinction between an absent and an explicitly
empty `DefinitionUploadIDs` (and the other optional cached fields). -/
theorem decodeCursor_encodeCursor (c : referencesCursor) :
    decodeCursor (encodeCursor c) = .ok c := by
  have hp := parseCursor_rt c []
  rw [List.append_nil] at hp
  unfold decodeCursor
  rw [hp]
  rfl

/-- C8: `rangeContainsPosition` returns true iff
`r.start <= p <= r.end` under lexicographic (line, character) order with
both boundaries inclusive: true at `p = r.start`, true at `p = r.end`,
false exactly when `p` precedes `r.start` or follows `r.end`. -/
theorem rangeContainsPosition_iff_lex (r : Range) (p : Position) :
    rangeContainsPosition r p = true ↔ posLe r.start p ∧ posLe p r.stop := by
  unfold rangeContainsPosition posLe
  by_cases h1 : p.line < r.start.line <;>
    by_cases h2 : p.line > r.stop.line <;>
      by_cases h3 : p.line == r.start.line && p.character < r.start.character <;>
        by_cases h4 : p.line == r.stop.line && p.character > r.stop.character <;>
          simp_all <;> omega
